import Mathlib

/-!
Shallow embedding of the local-etl batch pipeline (src/main.py, the legacy
single-table variant, and src/main2.py, the two-table variant).

Python strings are modelled over their character lists (ASCII-faithful for the
operations the pipeline uses); Python dicts are association lists with the
insertion-order update semantics of CPython dicts; Python statements that can
raise (KeyError, ValueError) are modelled with Option, none standing for an
uncaught exception that aborts the run.
-/

/-- ASCII model of the whitespace class used by Python str.lstrip(). -/
def pyIsSpace (c : Char) : Bool :=
  c == ' ' || c == '\t' || c == '\n' || c == '\r' || c == '\x0b' || c == '\x0c'

/-- Python str.lstrip() with no argument: drop leading whitespace. -/
def pyLstrip (s : String) : String :=
  ⟨s.data.dropWhile pyIsSpace⟩

/-- Python str.capitalize(): first character uppercased, all following
characters lowercased (ASCII model). -/
def pyCapitalize (s : String) : String :=
  match s.data with
  | [] => ""
  | c :: cs => ⟨Char.toUpper c :: cs.map Char.toLower⟩

/-- Python str.replace(old, new) in the one-character case the pipeline uses
(replacing every newline of the address value with a space). -/
def pyReplaceChar (old new : Char) (s : String) : String :=
  ⟨s.data.map (fun c => if c == old then new else c)⟩

/-- Python `c in s` for a single character c. -/
def charIn (c : Char) (s : String) : Bool :=
  s.data.contains c

/-- Whether `needle` is an initial segment of `hay`. -/
def beginsWith : List Char → List Char → Bool
  | [], _ => true
  | _ :: _, [] => false
  | a :: as, b :: bs => a == b && beginsWith as bs

/-- Whether `needle` occurs contiguously inside `hay`. -/
def hasSub (needle : List Char) : List Char → Bool
  | [] => beginsWith needle []
  | c :: cs => beginsWith needle (c :: cs) || hasSub needle cs

/-- Python `needle in hay` for strings (substring membership). -/
def pyInStr (needle hay : String) : Bool :=
  hasSub needle.data hay.data

/-- Python `s.endswith(sfx)`. -/
def pyEndsWith (sfx s : String) : Bool :=
  beginsWith sfx.data.reverse s.data.reverse

/-- Python str.split(sep) for a one-character separator, over character lists:
splits at every occurrence of the separator and keeps empty chunks, exactly as
CPython does (so the result always has one more chunk than separators). -/
def pySplitChars (c : Char) : List Char → List (List Char)
  | [] => [[]]
  | x :: xs =>
    if x == c then [] :: pySplitChars c xs
    else
      match pySplitChars c xs with
      | [] => [[x]]
      | g :: gs => (x :: g) :: gs

/-- Python str.split(sep) for a one-character separator. -/
def pySplit (s : String) (c : Char) : List String :=
  (pySplitChars c s.data).map (fun l => String.mk l)

/-- Association-list model of a CPython dict with string keys and string
values (the pipeline writes values through as-is; the ones it manipulates are
strings). Keys of a real dict are unique; the operations below mirror CPython
on that assumption and act on the first binding of a key. -/
abbrev PyDict := List (String × String)

/-- Python d.get(k) / d[k]: the value of the first binding of k, if any
(none models the KeyError of a bare d[k]). -/
def dictLookup : PyDict → String → Option String
  | [], _ => none
  | (k', v) :: d, k => if k' == k then some v else dictLookup d k

/-- Python `k in d`. -/
def dictContains : PyDict → String → Bool
  | [], _ => false
  | (k', _) :: d, k => k' == k || dictContains d k

/-- Python d[k] = v: replace the value in place when the key exists (keeping
its position), otherwise append the new binding at the end. -/
def dictInsert : PyDict → String → String → PyDict
  | [], k, v => [(k, v)]
  | (k', v') :: d, k, v => if k' == k then (k, v) :: d else (k', v') :: dictInsert d k v

/-- src/main.py lines 118-124 and src/main2.py lines 173-188 (identical):
the ad hoc job-title fix. `general_job_title, specialization = job.split(',')`
raises ValueError unless the split has exactly two parts; none models that
exception. Otherwise the result is
capitalize(lstrip(specialization) ++ " " ++ general_job_title). -/
def fix_job_field (job : String) : Option String :=
  match pySplit job ',' with
  | [general_job_title, specialization] =>
    some (pyCapitalize (pyLstrip specialization ++ " " ++ general_job_title))
  | _ => none

/-- An event document as the pipeline sees it after json.load: optional
payload and metadata members, each a flat string dict. -/
structure EventDoc where
  payload : Option PyDict
  metadata : Option PyDict
deriving DecidableEq

/-- src/main2.py lines 191-221, get_row_data: copy payload and metadata into
fresh dicts, set payload_dict['event_id'] from metadata (empty string when the
key is absent), then apply the users-only fixes when an address field is
present: strip newlines from the address, and when the job value contains a
comma rewrite it with fix_job_field. none models an uncaught exception: the
KeyError of json_data['payload'] / json_data['metadata'] when the member is
absent, the KeyError of payload_dict['job'] when address is present but job
is not, or the ValueError of fix_job_field. -/
def get_row_data (json_data : EventDoc) : Option (PyDict × PyDict) :=
  match json_data.payload, json_data.metadata with
  | some payload, some metadata =>
    let payload_dict := dictInsert payload "event_id" ((dictLookup metadata "event_id").getD "")
    if dictContains payload_dict "address" then
      match dictLookup payload_dict "address" with
      | none => none
      | some addr =>
        let payload_dict2 := dictInsert payload_dict "address" (pyReplaceChar '\n' ' ' addr)
        match dictLookup payload_dict2 "job" with
        | none => none
        | some job =>
          if charIn ',' job then
            match fix_job_field job with
            | none => none
            | some newJob => some (dictInsert payload_dict2 "job" newJob, metadata)
          else some (payload_dict2, metadata)
    else some (payload_dict, metadata)
  | _, _ => none

/-- csv.DictWriter(..., restval='', extrasaction='ignore').writerow(d):
the written record has exactly the fieldnames, in order; a field absent from
the row dict is rendered as the empty string; extra keys of d are dropped. -/
def writerow (fieldnames : List String) (d : PyDict) : PyDict :=
  fieldnames.map (fun f => (f, (dictLookup d f).getD ""))

/-- The validation-message marker tested by main()/main2(): a jsonschema
missing-required-property violation message contains this text. -/
def requiredPropertyMarker : String := "is a required property"

/-- Effects of processing one .json file, recorded by the loop body. -/
structure StepResult where
  valid_inc : Nat
  invalid_inc : Nat
  logs : Nat
  copies : Nat
  payload_rows : List PyDict
  metadata_rows : List PyDict
  crashed : Bool
deriving DecidableEq

/-- src/main2.py lines 288-311 (src/main.py lines 171-193 is identical up to
writing a single combined table): the body of the per-file loop, after the
.json discovery check. Takes the validator verdict (is_valid, message) for
the document as input, since jsonschema is an external collaborator.
Valid: count valid, project, write one row per table. Invalid: count invalid,
append one error-log line, copy the file to the mismatch directory; then skip
unless the message marks a missing required property and replace_missing_data
is set, in which case project and write. A none from get_row_data is an
uncaught exception: crashed is set and no row is written. -/
def process_json_file (replace_missing_data : Bool) (pf mf : List String)
    (is_valid : Bool) (message : String) (doc : EventDoc) : StepResult :=
  if is_valid then
    match get_row_data doc with
    | some (pr, mr) => ⟨1, 0, 0, 0, [writerow pf pr], [writerow mf mr], false⟩
    | none => ⟨1, 0, 0, 0, [], [], true⟩
  else
    if !(pyInStr requiredPropertyMarker message) then ⟨0, 1, 1, 1, [], [], false⟩
    else if !replace_missing_data then ⟨0, 1, 1, 1, [], [], false⟩
    else
      match get_row_data doc with
      | some (pr, mr) => ⟨0, 1, 1, 1, [writerow pf pr], [writerow mf mr], false⟩
      | none => ⟨0, 1, 1, 1, [], [], true⟩

/-- One directory entry together with the validator verdict its document
would receive (validation itself is the external jsonschema engine). -/
structure DirEntry where
  name : String
  is_valid : Bool
  message : String
  doc : EventDoc
deriving DecidableEq

/-- Per-dataset mutable state of main(): the three counters, the effects
accumulated so far, and whether an uncaught exception ended the run. -/
structure LoopState where
  file_count : Nat
  valid_count : Nat
  invalid_count : Nat
  logs : Nat
  copies : Nat
  payload_rows : List PyDict
  metadata_rows : List PyDict
  crashed : Bool
deriving DecidableEq

/-- Fold one step's effects into the dataset state. -/
def applyStep (st : LoopState) (r : StepResult) : LoopState :=
  { file_count := st.file_count
    valid_count := st.valid_count + r.valid_inc
    invalid_count := st.invalid_count + r.invalid_inc
    logs := st.logs + r.logs
    copies := st.copies + r.copies
    payload_rows := st.payload_rows ++ r.payload_rows
    metadata_rows := st.metadata_rows ++ r.metadata_rows
    crashed := r.crashed }

/-- src/main2.py lines 280-311 / src/main.py lines 163-193: one iteration of
the for loop over the directory listing. Files whose names do not end in
.json are skipped entirely; for a .json file the counter file_count is
incremented before validation, then the file is processed. A crashed state is
absorbing: an uncaught exception aborted the run, no further file is read. -/
def loopStep (replace_missing_data : Bool) (pf mf : List String)
    (st : LoopState) (e : DirEntry) : LoopState :=
  if st.crashed then st
  else if pyEndsWith ".json" e.name then
    applyStep { st with file_count := st.file_count + 1 }
      (process_json_file replace_missing_data pf mf e.is_valid e.message e.doc)
  else st

/-- The dataset file loop, started from an arbitrary state. -/
def runLoopFrom (replace_missing_data : Bool) (pf mf : List String)
    (st : LoopState) (entries : List DirEntry) : LoopState :=
  entries.foldl (loopStep replace_missing_data pf mf) st

/-- The per-dataset counters are reset before the loop starts. -/
def initState : LoopState := ⟨0, 0, 0, 0, 0, [], [], false⟩

/-- A full dataset file loop, as main() runs it. -/
def runLoop (replace_missing_data : Bool) (pf mf : List String)
    (entries : List DirEntry) : LoopState :=
  runLoopFrom replace_missing_data pf mf initState entries

/-- A heap of Python list objects, addressed by index, for stating what the
field-name derivation mutates: CPython lists are shared by reference, so a
shallow schema.copy() still shares the nested required lists. -/
abbrev ListStore := List (List String)

/-- The list object at address a (an out-of-range address reads as empty). -/
def readL : ListStore → Nat → List String
  | [], _ => []
  | l :: _, 0 => l
  | _ :: st, n + 1 => readL st n

/-- Overwrite the list object at address a in place. -/
def writeL : ListStore → Nat → List String → ListStore
  | [], _, _ => []
  | _ :: st, 0, l => l :: st
  | x :: st, n + 1, l => x :: writeL st n l

/-- The parts of a parsed JSON schema the derivation touches: references
(addresses) to the list objects properties.payload.required and
properties.metadata.required. -/
structure SchemaRef where
  payloadReq : Nat
  metadataReq : Nat
deriving DecidableEq

/-- src/main2.py lines 148-170, get_field_names: schema_copy = schema.copy()
(a shallow copy, so the required lists stay shared); two fresh empty lists
are allocated; each is extended with the elements of the corresponding
required list; finally 'event_id' is appended to the payload field list.
Returns the new store and the addresses of the two fresh lists. -/
def get_field_names (st : ListStore) (schema : SchemaRef) : ListStore × (Nat × Nat) :=
  let schema_copy := schema
  let st1 := st ++ [[]]
  let payload_fields := st.length
  let st2 := st1 ++ [[]]
  let metadata_fields := st1.length
  let st3 := writeL st2 payload_fields (readL st2 payload_fields ++ readL st2 schema_copy.payloadReq)
  let st4 := writeL st3 metadata_fields (readL st3 metadata_fields ++ readL st3 schema_copy.metadataReq)
  let st5 := writeL st4 payload_fields (readL st4 payload_fields ++ ["event_id"])
  (st5, (payload_fields, metadata_fields))

/-- src/main.py lines 87-97, the legacy get_field_names: one fresh list is
allocated and extended first with the payload required list, then with the
metadata required list; no 'event_id' is appended and a single combined
fieldnames list is returned (its address, with the new store). -/
def get_field_names_legacy (st : ListStore) (schema : SchemaRef) : ListStore × Nat :=
  let payload_keys := schema.payloadReq
  let metadata_keys := schema.metadataReq
  let st1 := st ++ [[]]
  let fieldnames := st.length
  let st2 := writeL st1 fieldnames (readL st1 fieldnames ++ readL st1 payload_keys)
  let st3 := writeL st2 fieldnames (readL st2 fieldnames ++ readL st2 metadata_keys)
  (st3, fieldnames)

/-- src/main2.py lines 263-278: an output table file is opened in append
mode; a header row is written only when the file object's position at open is
zero, i.e. the file is empty; then the run's data rows are appended. The
physical file is modelled as the list of its rows. -/
def writeTableRun (header : List String) (rows : List (List String))
    (file : List (List String)) : List (List String) :=
  file ++ (if file.isEmpty then [header] else []) ++ rows

/-- src/main.py lines 156-161: the legacy variant opens the output file in
append mode and calls writeheader() unconditionally, then appends the rows. -/
def writeTableRunLegacy (header : List String) (rows : List (List String))
    (file : List (List String)) : List (List String) :=
  file ++ [header] ++ rows

/-- src/main.py lines 48-56 / src/main2.py lines 74-95, save_log: a while
True loop that tries to open errors.log for append and write one line,
breaking on success and retrying immediately on IOError/PermissionError.
`attempts k` says whether the k-th open succeeds. The value is the attempt
index at which the loop exits (having appended exactly one line), given fuel
n iterations; none means the loop is still running after n iterations. -/
def save_log_fuel (attempts : Nat → Bool) (k : Nat) : Nat → Option Nat
  | 0 => none
  | n + 1 => if attempts k then some k else save_log_fuel attempts (k + 1) n

/-- Follows the spec's words for the job fix (to be compared with
fix_job_field): "split on the first comma" — the part before the first comma
and the part after it. -/
def splitOnFirstComma : List Char → List Char × List Char
  | [] => ([], [])
  | c :: cs =>
    if c == ',' then ([], cs)
    else (c :: (splitOnFirstComma cs).1, (splitOnFirstComma cs).2)

theorem dictLookup_dictInsert_self (d : PyDict) (k v : String) :
    dictLookup (dictInsert d k v) k = some v := by
  induction d with
  | nil => simp [dictInsert, dictLookup]
  | cons hd d ih =>
    obtain ⟨k', v'⟩ := hd
    by_cases h : k' = k
    · simp [dictInsert, dictLookup, h]
    · simp [dictInsert, dictLookup, h, ih]

theorem dictLookup_dictInsert_ne (d : PyDict) (ki kl v : String) (h : ki ≠ kl) :
    dictLookup (dictInsert d ki v) kl = dictLookup d kl := by
  induction d with
  | nil => simp [dictInsert, dictLookup, h]
  | cons hd d ih =>
    obtain ⟨k', v'⟩ := hd
    by_cases h' : k' = ki
    · subst h'
      simp [dictInsert, dictLookup, h]
    · by_cases h'' : k' = kl
      · simp [dictInsert, dictLookup, h', h'', Ne.symm h]
      · simp [dictInsert, dictLookup, h', h'', ih]

theorem dictContains_dictInsert_ne (d : PyDict) (ki kc v : String) (h : ki ≠ kc) :
    dictContains (dictInsert d ki v) kc = dictContains d kc := by
  induction d with
  | nil => simp [dictInsert, dictContains, h]
  | cons hd d ih =>
    obtain ⟨k', v'⟩ := hd
    by_cases h' : k' = ki
    · subst h'
      simp [dictInsert, dictContains, h]
    · simp [dictInsert, dictContains, h', ih]

theorem dictContains_lookup (d : PyDict) (k : String) (h : dictContains d k = true) :
    ∃ v, dictLookup d k = some v := by
  induction d with
  | nil => simp [dictContains] at h
  | cons hd d ih =>
    obtain ⟨k', v'⟩ := hd
    by_cases h' : k' = k
    · exact ⟨v', by simp [dictLookup, h']⟩
    · simp [dictContains, h'] at h
      obtain ⟨v, hv⟩ := ih h
      exact ⟨v, by simp [dictLookup, h', hv]⟩

theorem dictLookup_writerow (fns : List String) (d : PyDict) (f : String) (h : f ∈ fns) :
    dictLookup (writerow fns d) f = some ((dictLookup d f).getD "") := by
  induction fns with
  | nil => simp at h
  | cons g fns ih =>
    by_cases h' : g = f
    · simp [writerow, dictLookup, h']
    · have hf : f ∈ fns := by
        rcases List.mem_cons.mp h with h'' | h''
        · exact absurd h''.symm h'
        · exact h''
      simpa [writerow, dictLookup, h'] using ih hf

theorem pySplitChars_ne_nil (c : Char) (l : List Char) : pySplitChars c l ≠ [] := by
  cases l with
  | nil => simp [pySplitChars]
  | cons x xs =>
    simp only [pySplitChars]
    split
    · simp
    · split <;> simp

theorem pySplitChars_singleton (c : Char) :
    ∀ l sp, pySplitChars c l = [sp] → l = sp ∧ c ∉ sp := by
  intro l
  induction l with
  | nil =>
    intro sp h
    simp only [pySplitChars] at h
    injection h with h1 _
    exact ⟨h1, by simp [← h1]⟩
  | cons x xs ih =>
    intro sp h
    simp only [pySplitChars] at h
    by_cases hx : x == c
    · rw [if_pos hx] at h
      injection h with _ h2
      exact absurd h2 (pySplitChars_ne_nil c xs)
    · rw [if_neg hx] at h
      cases hr : pySplitChars c xs with
      | nil => exact absurd hr (pySplitChars_ne_nil c xs)
      | cons g gs =>
        rw [hr] at h
        injection h with h1 h2
        subst h2
        obtain ⟨hxs, hmem⟩ := ih g hr
        have hxc : ¬ x = c := by simpa using hx
        refine ⟨?_, ?_⟩
        · rw [← h1, hxs]
        · rw [← h1]
          simp only [List.mem_cons]
          rintro (h' | h')
          · exact hxc h'.symm
          · exact hmem h'

theorem pySplitChars_pair (c : Char) :
    ∀ l g sp, pySplitChars c l = [g, sp] → l = g ++ c :: sp ∧ c ∉ g ∧ c ∉ sp := by
  intro l
  induction l with
  | nil =>
    intro g sp h
    simp [pySplitChars] at h
  | cons x xs ih =>
    intro g sp h
    simp only [pySplitChars] at h
    by_cases hx : x == c
    · rw [if_pos hx] at h
      injection h with h1 h2
      obtain ⟨hxs, hmem⟩ := pySplitChars_singleton c xs sp h2
      have hxc : x = c := by simpa using hx
      subst hxc hxs
      exact ⟨by simp [← h1], by simp [← h1], hmem⟩
    · rw [if_neg hx] at h
      cases hr : pySplitChars c xs with
      | nil => exact absurd hr (pySplitChars_ne_nil c xs)
      | cons g0 gs =>
        rw [hr] at h
        injection h with h1 h2
        subst h2
        obtain ⟨hl, hg0, hsp⟩ := ih g0 sp hr
        have hxc : ¬ x = c := by simpa using hx
        refine ⟨?_, ?_, hsp⟩
        · rw [← h1, hl]
          simp
        · rw [← h1]
          simp only [List.mem_cons]
          rintro (h' | h')
          · exact hxc h'.symm
          · exact hg0 h'

theorem splitOnFirstComma_append (g sp : List Char) (hg : ',' ∉ g) :
    splitOnFirstComma (g ++ ',' :: sp) = (g, sp) := by
  induction g with
  | nil => simp [splitOnFirstComma]
  | cons a g ih =>
    have ha : ¬ a = ',' := fun h => hg (by simp [h])
    have ih' := ih (fun h => hg (List.mem_cons_of_mem a h))
    simp [splitOnFirstComma, ha, ih']

theorem readL_append_lt (st ex : ListStore) (i : Nat) (h : i < st.length) :
    readL (st ++ ex) i = readL st i := by
  induction st generalizing i with
  | nil => simp at h
  | cons x st ih =>
    cases i with
    | zero => rfl
    | succ n =>
      simp only [List.cons_append, readL]
      exact ih n (by simpa using h)

theorem readL_append_len (st : ListStore) (x : List String) (ex : ListStore) :
    readL (st ++ x :: ex) st.length = x := by
  induction st with
  | nil => rfl
  | cons y st ih => simpa [readL] using ih

theorem writeL_length (st : ListStore) (n : Nat) (l : List String) :
    (writeL st n l).length = st.length := by
  induction st generalizing n with
  | nil => rfl
  | cons x st ih =>
    cases n with
    | zero => rfl
    | succ m => simp [writeL, ih]

theorem readL_writeL_self (st : ListStore) (n : Nat) (l : List String) (h : n < st.length) :
    readL (writeL st n l) n = l := by
  induction st generalizing n with
  | nil => simp at h
  | cons x st ih =>
    cases n with
    | zero => rfl
    | succ m =>
      simp only [writeL, readL]
      exact ih m (by simpa using h)

theorem readL_writeL_ne (st : ListStore) (n m : Nat) (l : List String) (h : m ≠ n) :
    readL (writeL st n l) m = readL st m := by
  induction st generalizing n m with
  | nil => rfl
  | cons x st ih =>
    cases n with
    | zero =>
      cases m with
      | zero => exact absurd rfl h
      | succ m' => rfl
    | succ n' =>
      cases m with
      | zero => rfl
      | succ m' =>
        simp only [writeL, readL]
        exact ih n' m' (fun h' => h (by rw [h']))

theorem get_row_data_event_id (payload metadata p m : PyDict)
    (h : get_row_data ⟨some payload, some metadata⟩ = some (p, m)) :
    dictLookup p "event_id" = some ((dictLookup metadata "event_id").getD "") ∧ m = metadata := by
  simp only [get_row_data] at h
  set pd1 := dictInsert payload "event_id" ((dictLookup metadata "event_id").getD "") with hpd1
  have hself : dictLookup pd1 "event_id" = some ((dictLookup metadata "event_id").getD "") :=
    dictLookup_dictInsert_self _ _ _
  cases hA : dictContains pd1 "address" with
  | false =>
    simp only [hA, Bool.false_eq_true, if_false] at h
    injection h with h'
    injection h' with h1 h2
    subst h1 h2
    exact ⟨hself, rfl⟩
  | true =>
    simp only [hA, if_true] at h
    obtain ⟨addr, haddr⟩ := dictContains_lookup _ _ hA
    rw [haddr] at h
    dsimp only at h
    set pd2 := dictInsert pd1 "address" (pyReplaceChar '\n' ' ' addr) with hpd2
    have hev2 : dictLookup pd2 "event_id" = dictLookup pd1 "event_id" :=
      dictLookup_dictInsert_ne _ _ _ _ (by decide)
    cases hjob : dictLookup pd2 "job" with
    | none =>
      rw [hjob] at h
      dsimp only at h
      exact absurd h (by simp)
    | some job =>
      rw [hjob] at h
      dsimp only at h
      cases hc : charIn ',' job with
      | false =>
        simp only [hc, Bool.false_eq_true, if_false] at h
        injection h with h'
        injection h' with h1 h2
        subst h1 h2
        exact ⟨hev2.trans hself, rfl⟩
      | true =>
        simp only [hc, if_true] at h
        cases hf : fix_job_field job with
        | none =>
          rw [hf] at h
          dsimp only at h
          exact absurd h (by simp)
        | some nj =>
          rw [hf] at h
          dsimp only at h
          injection h with h'
          injection h' with h1 h2
          subst h1 h2
          refine ⟨?_, rfl⟩
          rw [dictLookup_dictInsert_ne _ _ _ _ (by decide)]
          exact hev2.trans hself

/-- C3: for every projected row whose payload contains an `address` field: if
the `job` value contains a comma, the new `job` value equals the result of
splitting the original on the first comma, stripping leading whitespace from
the specialization part, reordering to "(specialization) (general title)",
and capitalizing (first character uppercase, remainder lowercase); if `job`
is absent or contains no comma, it is left unchanged. (A projection that
raises — job absent, or two or more commas — produces no row at all, so it
falls outside the quantifier; on every produced row the property holds.) -/
theorem c3_job_fix (payload metadata p m : PyDict)
    (h : get_row_data ⟨some payload, some metadata⟩ = some (p, m))
    (hA0 : dictContains payload "address" = true) :
    (∀ job, dictLookup payload "job" = some job →
      (charIn ',' job = true →
        dictLookup p "job" =
          some (pyCapitalize (pyLstrip (String.mk (splitOnFirstComma job.data).2) ++ " " ++
            String.mk (splitOnFirstComma job.data).1)))
      ∧ (charIn ',' job = false → dictLookup p "job" = some job))
    ∧ (dictLookup payload "job" = none → dictLookup p "job" = none) := by
  simp only [get_row_data] at h
  set pd1 := dictInsert payload "event_id" ((dictLookup metadata "event_id").getD "") with hpd1
  have hA : dictContains pd1 "address" = true :=
    (dictContains_dictInsert_ne payload "event_id" "address" _ (by decide)).trans hA0
  simp only [hA, if_true] at h
  obtain ⟨addr, haddr⟩ := dictContains_lookup _ _ hA
  rw [haddr] at h
  dsimp only at h
  set pd2 := dictInsert pd1 "address" (pyReplaceChar '\n' ' ' addr) with hpd2
  have hjob_eq : dictLookup pd2 "job" = dictLookup payload "job" := by
    rw [hpd2, dictLookup_dictInsert_ne _ _ _ _ (by decide), hpd1,
      dictLookup_dictInsert_ne _ _ _ _ (by decide)]
  constructor
  · intro job hjob
    have hj2 : dictLookup pd2 "job" = some job := hjob_eq.trans hjob
    rw [hj2] at h
    dsimp only at h
    constructor
    · intro hc
      simp only [hc, if_true] at h
      cases hf : fix_job_field job with
      | none =>
        rw [hf] at h
        dsimp only at h
        exact absurd h (by simp)
      | some nj =>
        rw [hf] at h
        dsimp only at h
        injection h with h'
        injection h' with h1 h2
        subst h1 h2
        rw [dictLookup_dictInsert_self]
        cases hps : pySplitChars ',' job.data with
        | nil => exact absurd hps (pySplitChars_ne_nil _ _)
        | cons gc tl =>
          cases tl with
          | nil => simp [fix_job_field, pySplit, hps] at hf
          | cons sc tl2 =>
            cases tl2 with
            | nil =>
              simp only [fix_job_field, pySplit, hps, List.map] at hf
              obtain ⟨hdata, hgc, _⟩ := pySplitChars_pair ',' job.data gc sc hps
              rw [hdata, splitOnFirstComma_append gc sc hgc]
              injection hf with hf'
              rw [← hf']
            | cons t3 ts => simp [fix_job_field, pySplit, hps] at hf
    · intro hc
      simp only [hc, Bool.false_eq_true, if_false] at h
      injection h with h'
      injection h' with h1 h2
      subst h1 h2
      exact hj2
  · intro hnone
    have hj2 : dictLookup pd2 "job" = none := hjob_eq.trans hnone
    rw [hj2] at h
    dsimp only at h
    exact absurd h (by simp)

/-- C6: for every projected document, the payload row's `event_id` field
equals the value of the document's metadata `event_id` key when that key is
present, and the empty string when it is absent. -/
theorem c6_event_id_roundtrip (payload metadata p m : PyDict)
    (h : get_row_data ⟨some payload, some metadata⟩ = some (p, m)) :
    dictLookup p "event_id" = some ((dictLookup metadata "event_id").getD "") :=
  (get_row_data_event_id payload metadata p m h).1

/-- C5: every input document that fails validation produces exactly one
error-log line and exactly one quarantine copy, whatever the policy flag, the
message, and the document, hence regardless of whether the record is
afterwards also written to the output tables. -/
theorem c5_quarantine_once (replace_missing_data : Bool) (pf mf : List String)
    (message : String) (doc : EventDoc) :
    (process_json_file replace_missing_data pf mf false message doc).logs = 1 ∧
    (process_json_file replace_missing_data pf mf false message doc).copies = 1 := by
  unfold process_json_file
  simp only [Bool.false_eq_true, if_false]
  split
  · exact ⟨rfl, rfl⟩
  · split
    · exact ⟨rfl, rfl⟩
    · cases hg : get_row_data doc with
      | none => simp [hg]
      | some pm =>
        obtain ⟨pr, mr⟩ := pm
        simp [hg]

theorem process_inc_sum (replace_missing_data : Bool) (pf mf : List String)
    (is_valid : Bool) (message : String) (doc : EventDoc) :
    (process_json_file replace_missing_data pf mf is_valid message doc).valid_inc +
    (process_json_file replace_missing_data pf mf is_valid message doc).invalid_inc = 1 := by
  unfold process_json_file
  cases is_valid with
  | false =>
    simp only [Bool.false_eq_true, if_false]
    split
    · rfl
    · split
      · rfl
      · cases hg : get_row_data doc with
        | none => simp [hg]
        | some pm =>
          obtain ⟨pr, mr⟩ := pm
          simp [hg]
  | true =>
    simp only [if_true]
    cases hg : get_row_data doc with
    | none => simp [hg]
    | some pm =>
      obtain ⟨pr, mr⟩ := pm
      simp [hg]

/-- C8: one iteration of the directory loop. A file whose name does not end
in .json leaves the whole dataset state unchanged: no counter moves, no
validation effect, no quarantine, no write. A .json file increments
file_count by one whatever its validator verdict and document are. -/
theorem c8_discovery (replace_missing_data : Bool) (pf mf : List String)
    (st : LoopState) (e : DirEntry) :
    (pyEndsWith ".json" e.name = false →
      loopStep replace_missing_data pf mf st e = st)
    ∧ (pyEndsWith ".json" e.name = true → st.crashed = false →
      (loopStep replace_missing_data pf mf st e).file_count = st.file_count + 1) := by
  constructor
  · intro hn
    unfold loopStep
    by_cases hc : st.crashed = true
    · simp [hc]
    · simp [hc, hn]
  · intro hn hc
    unfold loopStep
    simp [hc, hn, applyStep]

theorem loopStep_inv (replace_missing_data : Bool) (pf mf : List String)
    (st : LoopState) (e : DirEntry)
    (h : st.file_count = st.valid_count + st.invalid_count) :
    (loopStep replace_missing_data pf mf st e).file_count =
      (loopStep replace_missing_data pf mf st e).valid_count +
      (loopStep replace_missing_data pf mf st e).invalid_count := by
  unfold loopStep
  by_cases hc : st.crashed = true
  · simp [hc, h]
  · cases hn : pyEndsWith ".json" e.name with
    | false => simp [hc, hn, h]
    | true =>
      have hs := process_inc_sum replace_missing_data pf mf e.is_valid e.message e.doc
      simp only [hc, hn, Bool.false_eq_true, if_false, if_true, applyStep]
      omega

/-- C10: the loop invariant files_seen = valid + invalid. From any state
satisfying it — in particular the all-zero state the counters are reset to
before a dataset's loop — every iteration of the file loop preserves it, so
the counters reported at end-of-dataset satisfy it: every counted .json file
has been classified as exactly one of valid or invalid. -/
theorem c10_counter_invariant (replace_missing_data : Bool) (pf mf : List String)
    (entries : List DirEntry) (st : LoopState)
    (h : st.file_count = st.valid_count + st.invalid_count) :
    (runLoopFrom replace_missing_data pf mf st entries).file_count =
      (runLoopFrom replace_missing_data pf mf st entries).valid_count +
      (runLoopFrom replace_missing_data pf mf st entries).invalid_count := by
  induction entries generalizing st with
  | nil => exact h
  | cons e es ih =>
    simp only [runLoopFrom, List.foldl_cons]
    exact ih _ (loopStep_inv replace_missing_data pf mf st e h)

theorem get_field_names_reads (st : ListStore) (schema : SchemaRef)
    (hp : schema.payloadReq < st.length) (hm : schema.metadataReq < st.length) :
    readL (get_field_names st schema).1 st.length = readL st schema.payloadReq ++ ["event_id"]
    ∧ readL (get_field_names st schema).1 (st.length + 1) = readL st schema.metadataReq
    ∧ (∀ i, i < st.length → readL (get_field_names st schema).1 i = readL st i)
    ∧ (get_field_names st schema).2 = (st.length, st.length + 1) := by
  have len1 : (st ++ [[]]).length = st.length + 1 := by simp
  have len2 : (st ++ [[]] ++ [[]]).length = st.length + 2 := by simp
  have ha2 : readL (st ++ [[]] ++ [[]]) st.length = [] := by
    rw [readL_append_lt (st ++ [[]]) [[]] st.length (by omega), readL_append_len st [] []]
  have hb2 : readL (st ++ [[]] ++ [[]]) (st.length + 1) = [] := by
    have h := readL_append_len (st ++ [[]]) [] []
    rwa [len1] at h
  have hp2 : readL (st ++ [[]] ++ [[]]) schema.payloadReq = readL st schema.payloadReq := by
    rw [readL_append_lt _ _ _ (by omega), readL_append_lt _ _ _ hp]
  have hm2 : readL (st ++ [[]] ++ [[]]) schema.metadataReq = readL st schema.metadataReq := by
    rw [readL_append_lt _ _ _ (by omega), readL_append_lt _ _ _ hm]
  simp only [get_field_names, len1]
  rw [ha2, hp2, List.nil_append]
  set B := writeL (st ++ [[]] ++ [[]]) st.length (readL st schema.payloadReq) with hB
  have lenB : B.length = st.length + 2 := by rw [hB, writeL_length]; exact len2
  have h3b : readL B (st.length + 1) = [] := by
    rw [hB, readL_writeL_ne _ _ _ _ (by omega)]
    exact hb2
  have h3q : readL B schema.metadataReq = readL st schema.metadataReq := by
    rw [hB, readL_writeL_ne _ _ _ _ (by omega)]
    exact hm2
  rw [h3b, h3q, List.nil_append]
  set C := writeL B (st.length + 1) (readL st schema.metadataReq) with hC
  have lenC : C.length = st.length + 2 := by rw [hC, writeL_length]; exact lenB
  have h4a : readL C st.length = readL st schema.payloadReq := by
    rw [hC, readL_writeL_ne _ _ _ _ (by omega), hB, readL_writeL_self _ _ _ (by omega)]
  rw [h4a]
  refine ⟨?_, ?_, ?_, trivial⟩
  · exact readL_writeL_self _ _ _ (by omega)
  · rw [readL_writeL_ne _ _ _ _ (by omega), hC, readL_writeL_self _ _ _ (by omega)]
  · intro i hi
    rw [readL_writeL_ne _ _ _ _ (by omega), hC, readL_writeL_ne _ _ _ _ (by omega), hB,
      readL_writeL_ne _ _ _ _ (by omega), readL_append_lt _ _ _ (by omega),
      readL_append_lt _ _ _ hi]

theorem get_field_names_legacy_reads (st : ListStore) (schema : SchemaRef)
    (hp : schema.payloadReq < st.length) (hm : schema.metadataReq < st.length) :
    readL (get_field_names_legacy st schema).1 st.length =
      readL st schema.payloadReq ++ readL st schema.metadataReq
    ∧ (∀ i, i < st.length → readL (get_field_names_legacy st schema).1 i = readL st i)
    ∧ (get_field_names_legacy st schema).2 = st.length := by
  have len1 : (st ++ [[]]).length = st.length + 1 := by simp
  have ha1 : readL (st ++ [[]]) st.length = [] := readL_append_len st [] []
  have hp1 : readL (st ++ [[]]) schema.payloadReq = readL st schema.payloadReq :=
    readL_append_lt _ _ _ hp
  have hm1 : readL (st ++ [[]]) schema.metadataReq = readL st schema.metadataReq :=
    readL_append_lt _ _ _ hm
  simp only [get_field_names_legacy]
  rw [ha1, hp1, List.nil_append]
  set B := writeL (st ++ [[]]) st.length (readL st schema.payloadReq) with hB
  have lenB : B.length = st.length + 1 := by rw [hB, writeL_length]; exact len1
  have h2a : readL B st.length = readL st schema.payloadReq := by
    rw [hB, readL_writeL_self _ _ _ (by omega)]
  have h2q : readL B schema.metadataReq = readL st schema.metadataReq := by
    rw [hB, readL_writeL_ne _ _ _ _ (by omega)]
    exact hm1
  rw [h2a, h2q]
  refine ⟨?_, ?_, trivial⟩
  · exact readL_writeL_self _ _ _ (by omega)
  · intro i hi
    rw [readL_writeL_ne _ _ _ _ (by omega), hB, readL_writeL_ne _ _ _ _ (by omega),
      readL_append_lt _ _ _ hi]

/-- C1 counterexample: the legacy field-name derivation of src/main.py (lines
87-97), run on a store holding the schema's required lists ["name"] (payload)
and ["ts"] (metadata), returns the single combined fieldnames list
["name", "ts"]: no payload field sequence ending in a synthetic event_id is
produced — the claim fails on this get_field_names. -/
theorem c1_counterexample :
    readL (get_field_names_legacy [["name"], ["ts"]] ⟨0, 1⟩).1
        (get_field_names_legacy [["name"], ["ts"]] ⟨0, 1⟩).2 = ["name", "ts"]
    ∧ ((readL (get_field_names_legacy [["name"], ["ts"]] ⟨0, 1⟩).1
        (get_field_names_legacy [["name"], ["ts"]] ⟨0, 1⟩).2).contains "event_id") = false := by
  decide

/-- C1 amended: in the two-table variant (src/main2.py lines 148-170),
get_field_names returns a payload field sequence that is exactly
schema.properties.payload.required followed by the synthetic `event_id`, and
a metadata field sequence equal to schema.properties.metadata.required; the
legacy variant (src/main.py lines 87-97) instead returns the single
concatenated list payload.required ++ metadata.required with no event_id. -/
theorem c1_field_names (st : ListStore) (schema : SchemaRef)
    (hp : schema.payloadReq < st.length) (hm : schema.metadataReq < st.length) :
    (readL (get_field_names st schema).1 (get_field_names st schema).2.1 =
        readL st schema.payloadReq ++ ["event_id"]
      ∧ readL (get_field_names st schema).1 (get_field_names st schema).2.2 =
        readL st schema.metadataReq)
    ∧ readL (get_field_names_legacy st schema).1 (get_field_names_legacy st schema).2 =
        readL st schema.payloadReq ++ readL st schema.metadataReq := by
  obtain ⟨h1, h2, _, h4⟩ := get_field_names_reads st schema hp hm
  obtain ⟨g1, _, g3⟩ := get_field_names_legacy_reads st schema hp hm
  rw [h4, g3]
  exact ⟨⟨h1, h2⟩, g1⟩

/-- C9: neither variant of get_field_names mutates the caller's schema: the
list objects referenced by the schema's properties.payload.required and
properties.metadata.required read the same after the call as before (the
extend/append writes go only to the freshly allocated field lists). -/
theorem c9_schema_not_mutated (st : ListStore) (schema : SchemaRef)
    (hp : schema.payloadReq < st.length) (hm : schema.metadataReq < st.length) :
    (readL (get_field_names st schema).1 schema.payloadReq = readL st schema.payloadReq
      ∧ readL (get_field_names st schema).1 schema.metadataReq = readL st schema.metadataReq)
    ∧ (readL (get_field_names_legacy st schema).1 schema.payloadReq = readL st schema.payloadReq
      ∧ readL (get_field_names_legacy st schema).1 schema.metadataReq =
        readL st schema.metadataReq) := by
  obtain ⟨_, _, h3, _⟩ := get_field_names_reads st schema hp hm
  obtain ⟨_, g2, _⟩ := get_field_names_legacy_reads st schema hp hm
  exact ⟨⟨h3 _ hp, h3 _ hm⟩, g2 _ hp, g2 _ hm⟩

/-- C2 counterexample: the legacy pipeline (src/main.py lines 156-161) calls
writeheader() unconditionally after opening in append mode, so running it
twice starting from an empty file leaves two header rows — the second run
wrote a header although its file was non-empty at open time. -/
theorem c2_counterexample :
    writeTableRunLegacy ["h"] [] (writeTableRunLegacy ["h"] [] []) = [["h"], ["h"]]
    ∧ (writeTableRunLegacy ["h"] [] []).isEmpty = false := by
  decide

/-- C2 amended: in the two-table pipeline (src/main2.py lines 263-278) a
header row is written only when the physical file is empty (position zero) at
open, so a run against a non-empty file appends data rows only, and a second
run on top of any first run never writes a second header; the legacy
single-table pipeline (src/main.py lines 156-161) writes the header
unconditionally on every open, duplicating it on reruns. -/
theorem c2_header_once (header : List String) (rows1 rows2 : List (List String))
    (file : List (List String)) :
    (file.isEmpty = false → writeTableRun header rows1 file = file ++ rows1)
    ∧ writeTableRun header rows2 (writeTableRun header rows1 file) =
        writeTableRun header rows1 file ++ rows2
    ∧ writeTableRunLegacy header rows2 (writeTableRunLegacy header rows1 file) =
        file ++ [header] ++ rows1 ++ [header] ++ rows2 := by
  refine ⟨?_, ?_, ?_⟩
  · intro h
    simp [writeTableRun, h]
  · have hgen : ∀ f : List (List String), f.isEmpty = false →
        writeTableRun header rows2 f = f ++ rows2 := by
      intro f hf
      simp [writeTableRun, hf]
    have hne : (writeTableRun header rows1 file).isEmpty = false := by
      cases file <;> simp [writeTableRun]
    exact hgen _ hne
  · simp [writeTableRunLegacy]

/-- C4 counterexample: a users document whose only validation violation is
the missing required property `job` (its payload has an address but no job),
processed with replace_missing_data = true: instead of writing exactly one
row per table with the missing field blank, the projection raises KeyError on
payload_dict['job'] (src/main2.py line 217 / src/main.py line 112), the run
crashes and no row is written. -/
theorem c4_counterexample :
    (process_json_file true ["address", "job", "event_id"] ["event_id"] false
      "'job' is a required property"
      ⟨some [("address", "A St"), ("name", "Bo")], some [("event_id", "E1")]⟩).payload_rows = []
    ∧ (process_json_file true ["address", "job", "event_id"] ["event_id"] false
      "'job' is a required property"
      ⟨some [("address", "A St"), ("name", "Bo")], some [("event_id", "E1")]⟩).crashed = true := by
  decide

/-- C4 amended: for a document whose validation message marks a missing
required property: with replace_missing_data = false no row is written to
either table (and the run continues); with replace_missing_data = true,
provided the projection succeeds, exactly one row per output table is
written, any field of the header absent from the projected row rendered as
the empty string; when the projection raises (payload or metadata member
missing, or a users payload without a usable job field) the run crashes with
no row written for the document. -/
theorem c4_missing_required_policy (pf mf : List String) (message : String) (doc : EventDoc)
    (hmsg : pyInStr requiredPropertyMarker message = true) :
    ((process_json_file false pf mf false message doc).payload_rows = []
      ∧ (process_json_file false pf mf false message doc).metadata_rows = []
      ∧ (process_json_file false pf mf false message doc).crashed = false)
    ∧ (∀ pr mr, get_row_data doc = some (pr, mr) →
        (process_json_file true pf mf false message doc).payload_rows = [writerow pf pr]
        ∧ (process_json_file true pf mf false message doc).metadata_rows = [writerow mf mr]
        ∧ ∀ f, f ∈ pf → dictLookup pr f = none →
            dictLookup (writerow pf pr) f = some "")
    ∧ (get_row_data doc = none →
        (process_json_file true pf mf false message doc).payload_rows = []
        ∧ (process_json_file true pf mf false message doc).crashed = true) := by
  refine ⟨?_, ?_, ?_⟩
  · simp [process_json_file, hmsg]
  · intro pr mr hg
    refine ⟨by simp [process_json_file, hmsg, hg], by simp [process_json_file, hmsg, hg], ?_⟩
    intro f hf hnone
    rw [dictLookup_writerow pf pr f hf, hnone]
    rfl
  · intro hg
    exact ⟨by simp [process_json_file, hmsg, hg], by simp [process_json_file, hmsg, hg]⟩

theorem save_log_fuel_allfail (n : Nat) : ∀ k, save_log_fuel (fun _ => false) k n = none := by
  induction n with
  | zero => intro k; rfl
  | succ n ih =>
    intro k
    simp only [save_log_fuel, Bool.false_eq_true, if_false]
    exact ih (k + 1)

/-- C7 counterexample: under a persistently failing open (every attempt
raises), the save_log retry loop never exits, whatever bound on the number of
iterations is allowed — the operation does not terminate, contradicting the
claim that a persistent failure still leads to termination. -/
theorem c7_counterexample :
    ¬ ∃ n, (save_log_fuel (fun _ => false) 0 n).isSome = true := by
  rintro ⟨n, h⟩
  rw [save_log_fuel_allfail n 0] at h
  simp at h

theorem save_log_fuel_some_spec (attempts : Nat → Bool) :
    ∀ n k j, save_log_fuel attempts k n = some j →
      attempts j = true ∧ k ≤ j ∧ ∀ i, k ≤ i → i < j → attempts i = false := by
  intro n
  induction n with
  | zero =>
    intro k j h
    exact absurd h (by simp [save_log_fuel])
  | succ n ih =>
    intro k j h
    by_cases ha : attempts k = true
    · simp only [save_log_fuel, ha, if_true] at h
      injection h with h'
      subst h'
      exact ⟨ha, le_refl _, fun i h1 h2 => by omega⟩
    · simp only [save_log_fuel, ha, if_false] at h
      obtain ⟨h1, h2, h3⟩ := ih (k + 1) j h
      refine ⟨h1, by omega, fun i hi1 hi2 => ?_⟩
      by_cases hik : i = k
      · subst hik
        simpa using ha
      · exact h3 i (by omega) hi2

theorem save_log_fuel_complete (attempts : Nat → Bool) :
    ∀ j k, attempts (k + j) = true →
      ∃ n, (save_log_fuel attempts k n).isSome = true := by
  intro j
  induction j with
  | zero =>
    intro k hk
    have hk0 : attempts k = true := by simpa using hk
    exact ⟨1, by simp [save_log_fuel, hk0]⟩
  | succ j ih =>
    intro k hk
    by_cases ha : attempts k = true
    · exact ⟨1, by simp [save_log_fuel, ha]⟩
    · have hk' : attempts ((k + 1) + j) = true := by
        rw [show (k + 1) + j = k + (j + 1) by omega]
        exact hk
      obtain ⟨n, hn⟩ := ih (k + 1) hk'
      exact ⟨n + 1, by simp [save_log_fuel, ha, hn]⟩

/-- C7 amended: save_log retries the open-and-append unconditionally, with no
attempt cap and no backoff: the loop terminates exactly when some attempt
eventually succeeds, and when it exits at attempt k that attempt is the first
successful one (every earlier attempt failed, and the line is appended once,
at attempt k); under persistent failure it loops forever. -/
theorem c7_retry_unbounded (attempts : Nat → Bool) :
    ((∃ n, (save_log_fuel attempts 0 n).isSome = true) ↔ (∃ k, attempts k = true))
    ∧ (∀ n k, save_log_fuel attempts 0 n = some k →
        attempts k = true ∧ ∀ j, j < k → attempts j = false) := by
  constructor
  · constructor
    · rintro ⟨n, hn⟩
      cases hj : save_log_fuel attempts 0 n with
      | none => rw [hj] at hn; simp at hn
      | some j => exact ⟨j, (save_log_fuel_some_spec attempts n 0 j hj).1⟩
    · rintro ⟨k, hk⟩
      exact save_log_fuel_complete attempts k 0 (by simpa using hk)
  · intro n k h
    obtain ⟨h1, _, h3⟩ := save_log_fuel_some_spec attempts n 0 k h
    exact ⟨h1, fun j hj => h3 j (Nat.zero_le j) hj⟩

/-- Witness for C1: a concrete store holding payload.required = ["name"] and
metadata.required = ["ts"]. -/
theorem c1_witness :
    (0 < 2 ∧ 1 < 2) ∧
    ((readL (get_field_names [["name"], ["ts"]] ⟨0, 1⟩).1
        (get_field_names [["name"], ["ts"]] ⟨0, 1⟩).2.1 =
        readL [["name"], ["ts"]] 0 ++ ["event_id"]
      ∧ readL (get_field_names [["name"], ["ts"]] ⟨0, 1⟩).1
        (get_field_names [["name"], ["ts"]] ⟨0, 1⟩).2.2 =
        readL [["name"], ["ts"]] 1)
    ∧ readL (get_field_names_legacy [["name"], ["ts"]] ⟨0, 1⟩).1
        (get_field_names_legacy [["name"], ["ts"]] ⟨0, 1⟩).2 =
        readL [["name"], ["ts"]] 0 ++ readL [["name"], ["ts"]] 1) :=
  ⟨⟨by decide, by decide⟩, c1_field_names [["name"], ["ts"]] ⟨0, 1⟩ (by decide) (by decide)⟩

/-- Witness for C2: a run of the two-table writer against a non-empty file
appends the data rows only. -/
theorem c2_witness :
    ([["x"]] : List (List String)).isEmpty = false
    ∧ writeTableRun ["h"] [["r"]] [["x"]] = [["x"]] ++ [["r"]] :=
  ⟨by decide, (c2_header_once ["h"] [["r"]] [] [["x"]]).1 (by decide)⟩

/-- Witness for C3: the spec's own example, job "Engineer, Backend" with an
address present, projects to job "Backend engineer". -/
theorem c3_witness :
    get_row_data ⟨some [("address", "123 Main St\nApt 4"), ("job", "Engineer, Backend")],
        some [("event_id", "E1")]⟩ =
      some ([("address", "123 Main St Apt 4"), ("job", "Backend engineer"), ("event_id", "E1")],
        [("event_id", "E1")])
    ∧ dictContains [("address", "123 Main St\nApt 4"), ("job", "Engineer, Backend")] "address" = true
    ∧ charIn ',' "Engineer, Backend" = true
    ∧ dictLookup [("address", "123 Main St Apt 4"), ("job", "Backend engineer"), ("event_id", "E1")]
        "job" =
      some (pyCapitalize (pyLstrip (String.mk (splitOnFirstComma "Engineer, Backend".data).2) ++
        " " ++ String.mk (splitOnFirstComma "Engineer, Backend".data).1)) :=
  ⟨by decide, by decide, by decide,
    ((c3_job_fix [("address", "123 Main St\nApt 4"), ("job", "Engineer, Backend")]
        [("event_id", "E1")]
        [("address", "123 Main St Apt 4"), ("job", "Backend engineer"), ("event_id", "E1")]
        [("event_id", "E1")] (by decide) (by decide)).1
      "Engineer, Backend" (by decide)).1 (by decide)⟩

/-- Witness for C4: a document missing only the required field name, with
replace_missing_data = true: exactly one row per table, name blank. -/
theorem c4_witness :
    pyInStr requiredPropertyMarker "'name' is a required property" = true
    ∧ get_row_data ⟨some [("job", "Clerk")], some [("event_id", "E1")]⟩ =
        some ([("job", "Clerk"), ("event_id", "E1")], [("event_id", "E1")])
    ∧ ((process_json_file true ["name", "job", "event_id"] ["event_id"] false
          "'name' is a required property"
          ⟨some [("job", "Clerk")], some [("event_id", "E1")]⟩).payload_rows =
        [writerow ["name", "job", "event_id"] [("job", "Clerk"), ("event_id", "E1")]]
      ∧ (process_json_file true ["name", "job", "event_id"] ["event_id"] false
          "'name' is a required property"
          ⟨some [("job", "Clerk")], some [("event_id", "E1")]⟩).metadata_rows =
        [writerow ["event_id"] [("event_id", "E1")]]
      ∧ ∀ f, f ∈ ["name", "job", "event_id"] →
          dictLookup [("job", "Clerk"), ("event_id", "E1")] f = none →
          dictLookup (writerow ["name", "job", "event_id"] [("job", "Clerk"), ("event_id", "E1")])
            f = some "") :=
  ⟨by decide, by decide,
    (c4_missing_required_policy ["name", "job", "event_id"] ["event_id"]
      "'name' is a required property" ⟨some [("job", "Clerk")], some [("event_id", "E1")]⟩
      (by decide)).2.1 [("job", "Clerk"), ("event_id", "E1")] [("event_id", "E1")] (by decide)⟩

/-- Witness for C6: a document with metadata event_id "E1" yields a payload
row whose event_id field is "E1". -/
theorem c6_witness :
    get_row_data ⟨some [("number", "4111")], some [("event_id", "E1")]⟩ =
      some ([("number", "4111"), ("event_id", "E1")], [("event_id", "E1")])
    ∧ dictLookup [("number", "4111"), ("event_id", "E1")] "event_id" =
        some ((dictLookup [("event_id", "E1")] "event_id").getD "") :=
  ⟨by decide, c6_event_id_roundtrip [("number", "4111")] [("event_id", "E1")]
    [("number", "4111"), ("event_id", "E1")] [("event_id", "E1")] (by decide)⟩

/-- Witness for C7: when the second attempt succeeds, the retry loop
terminates. -/
theorem c7_witness :
    (fun k => k == 1) 1 = true
    ∧ (∃ n, (save_log_fuel (fun k => k == 1) 0 n).isSome = true) :=
  ⟨by decide, (c7_retry_unbounded (fun k => k == 1)).1.mpr ⟨1, by decide⟩⟩

/-- Witness for C8: a .txt file leaves the state untouched; a .json file
increments file_count. -/
theorem c8_witness :
    pyEndsWith ".json" "readme.txt" = false
    ∧ pyEndsWith ".json" "a.json" = true
    ∧ loopStep true ["f"] ["g"] initState ⟨"readme.txt", true, "success", ⟨some [], some []⟩⟩ =
        initState
    ∧ (loopStep true ["f"] ["g"] initState
        ⟨"a.json", false, "bad type", ⟨some [], some []⟩⟩).file_count =
        initState.file_count + 1 :=
  ⟨by decide, by decide,
    (c8_discovery true ["f"] ["g"] initState
      ⟨"readme.txt", true, "success", ⟨some [], some []⟩⟩).1 (by decide),
    (c8_discovery true ["f"] ["g"] initState
      ⟨"a.json", false, "bad type", ⟨some [], some []⟩⟩).2 (by decide) (by decide)⟩

/-- Witness for C9: the concrete store of c1_witness reads unchanged at the
schema's addresses after both derivations. -/
theorem c9_witness :
    (0 < 2 ∧ 1 < 2)
    ∧ ((readL (get_field_names [["name"], ["ts"]] ⟨0, 1⟩).1 0 = readL [["name"], ["ts"]] 0
      ∧ readL (get_field_names [["name"], ["ts"]] ⟨0, 1⟩).1 1 = readL [["name"], ["ts"]] 1)
    ∧ (readL (get_field_names_legacy [["name"], ["ts"]] ⟨0, 1⟩).1 0 = readL [["name"], ["ts"]] 0
      ∧ readL (get_field_names_legacy [["name"], ["ts"]] ⟨0, 1⟩).1 1 =
        readL [["name"], ["ts"]] 1)) :=
  ⟨⟨by decide, by decide⟩, c9_schema_not_mutated [["name"], ["ts"]] ⟨0, 1⟩ (by decide) (by decide)⟩

/-- Witness for C10: from the reset counters, a one-file loop keeps
files_seen = valid + invalid. -/
theorem c10_witness :
    initState.file_count = initState.valid_count + initState.invalid_count
    ∧ (runLoopFrom true ["f"] ["g"] initState
        [⟨"a.json", true, "success", ⟨some [], some []⟩⟩]).file_count =
      (runLoopFrom true ["f"] ["g"] initState
        [⟨"a.json", true, "success", ⟨some [], some []⟩⟩]).valid_count +
      (runLoopFrom true ["f"] ["g"] initState
        [⟨"a.json", true, "success", ⟨some [], some []⟩⟩]).invalid_count :=
  ⟨by decide, c10_counter_invariant true ["f"] ["g"]
    [⟨"a.json", true, "success", ⟨some [], some []⟩⟩] initState (by decide)⟩

